import Mathlib

/-!
Verification of the AgentVerse pipeline builder, pipeline execution engine,
compatibility analyzer and coupling registry.

The pipeline-builder state and its operations (`addNode`, `connectNodes`,
`removeNode`, the default and test pipelines) are translated directly from
the React component `PipelineBuilder` (src/unnamed/part_017).  The backend
pieces (pipeline validator, scheduler/executor, node executors,
compatibility analyzer, coupling registry) are served by an API process
whose code is not in the repository snapshot; those definitions are
modelled from the specification, as marked in their doc comments.
-/

namespace AgentVerse

/-- A connection between two nodes, `{from, to}` in the source. -/
structure Conn where
  fromId : String
  toId : String
deriving DecidableEq

/-- A pipeline node as built by `PipelineBuilder`: id, string type tag
(`input` / `output` / `text` / `agent` / `mcp_server`), label and a
key/value `config` object.  The cosmetic `position` field is excluded
(spec §3 excludes it from the core model). -/
structure Node where
  id : String
  type : String
  label : String
  config : List (String × String)
deriving DecidableEq

/-- The `PipelineBuilder` React state that the claims are about:
the `nodes` and `connections` arrays. -/
structure BuilderState where
  nodes : List Node
  connections : List Conn
deriving DecidableEq

/-- Node ids of a node list. -/
def nodeIds (ns : List Node) : List String := ns.map (·.id)

/-- `connectNodes` from src/unnamed/part_017 lines 152-161: refuses a
self-connection, refuses an existing `(from,to)` pair, otherwise appends
the new connection. -/
def connectNodes (s : BuilderState) (fromId toId : String) : BuilderState :=
  if fromId == toId then s
  else if s.connections.any (fun c => c.fromId == fromId && c.toId == toId) then s
  else { s with connections := s.connections ++ [⟨fromId, toId⟩] }

/-- `removeNode` from src/unnamed/part_017 lines 167-173: drops the node
with the given id and every connection incident to it.  (The component
also clears the cosmetic `selectedNode` UI field, which is not part of
the pipeline data model.) -/
def removeNode (s : BuilderState) (nodeId : String) : BuilderState :=
  { nodes := s.nodes.filter (fun n => n.id ≠ nodeId),
    connections := s.connections.filter (fun c => c.fromId ≠ nodeId && c.toId ≠ nodeId) }

/-- Modelled from the spec: the node-type catalog returned by the backend
endpoint `GET /api/pipeline/node-types` (the API server is not in the
repository snapshot).  `addNode` only needs lookup by `type` tag, the
label, and the per-type default config keys shown in the builder UI. -/
structure NodeTypeInfo where
  ty : String
  label : String
  defaults : List (String × String)
deriving DecidableEq

/-- Modelled from the spec: the five node types of the data model
(spec §3: Input | Output | TextTransform | AgentCall | McpToolCall),
with the string tags and config keys used by `PipelineBuilder`. -/
def nodeTypeCatalog : List NodeTypeInfo :=
  [⟨"input", "Input", []⟩,
   ⟨"output", "Output", []⟩,
   ⟨"text", "Text Transform", [("operation", "uppercase")]⟩,
   ⟨"agent", "AI Agent", [("agent_id", "")]⟩,
   ⟨"mcp_server", "MCP Server", [("server_name", ""), ("tool_name", "")]⟩]

/-- `addNode` from src/unnamed/part_017 lines 135-150: looks the type up
in the catalog (unknown type: no-op), then appends a node whose id is
`node-${Date.now()}`.  The millisecond clock reading is the explicit
`now` argument here; the random cosmetic position is dropped. -/
def addNode (s : BuilderState) (ty : String) (now : Nat) : BuilderState :=
  match nodeTypeCatalog.find? (fun nt => nt.ty == ty) with
  | none => s
  | some nt =>
      { s with nodes := s.nodes ++ [⟨"node-" ++ toString now, ty, nt.label, nt.defaults⟩] }

/-- The default builder state installed by the `useEffect` initializer in
src/unnamed/part_017 lines 37-47. -/
def defaultBuilderState : BuilderState :=
  { nodes :=
      [⟨"node-1", "input", "Input", []⟩,
       ⟨"node-2", "agent", "AI Agent", [("agent_id", "")]⟩,
       ⟨"node-3", "output", "Output", []⟩],
    connections := [⟨"node-1", "node-2"⟩, ⟨"node-2", "node-3"⟩] }

/-- A pipeline definition as sent to the backend: name, description,
nodes and connections (spec §3, `savePipeline` in part_017). -/
structure Pipeline where
  name : String
  description : String
  nodes : List Node
  connections : List Conn
deriving DecidableEq

/-- The "Load Test Pipeline" pipeline from src/unnamed/part_017 lines
316-328: Input → TextTransform(uppercase) → Output. -/
def testPipeline : Pipeline :=
  { name := "Test Text Pipeline",
    description := "Simple text transformation pipeline",
    nodes :=
      [⟨"test-input", "input", "User Input", []⟩,
       ⟨"test-text", "text", "Make Uppercase", [("operation", "uppercase")]⟩,
       ⟨"test-output", "output", "Result", []⟩],
    connections := [⟨"test-input", "test-text"⟩, ⟨"test-text", "test-output"⟩] }

/-- The two-node cyclic pipeline `A→B, B→A` of spec §8. -/
def cyclePipeline : Pipeline :=
  { name := "Cycle",
    description := "A to B to A",
    nodes := [⟨"A", "input", "A", []⟩, ⟨"B", "output", "B", []⟩],
    connections := [⟨"A", "B"⟩, ⟨"B", "A"⟩] }

/-! ## Pipeline validator (spec §4.1) -/

/-- Result of `validate`: `{valid: bool, issues: string[]}` (spec §4.1). -/
structure ValidationResult where
  valid : Bool
  issues : List String
deriving DecidableEq

/-- Kahn-style elimination: repeatedly remove the ids with no incoming
connection from a remaining id (the ready set); the ids left over when no
progress is possible are exactly the ids on or downstream of a cycle. -/
def elimReady (conns : List Conn) : Nat → List String → List String
  | 0, ids => ids
  | fuel + 1, ids =>
      let ready := ids.filter
        (fun i => !(conns.any (fun c => c.toId == i && ids.contains c.fromId)))
      if ready.isEmpty then ids
      else elimReady conns fuel (ids.filter (fun i => !(ready.contains i)))

/-- Modelled from the spec: cycle detection (spec §4.1 check 5).  The
backend validator is not in the repository snapshot; the spec describes a
DFS with a recursion-stack marker, which flags a cycle exactly when some
declared edges form a cycle, i.e. exactly when Kahn elimination leaves
ids over. -/
def hasCycle (p : Pipeline) : Bool :=
  !(elimReady p.connections p.nodes.length (nodeIds p.nodes)).isEmpty

/-- Modelled from the spec: per-type config schema check (spec §4.1
check 6, required keys present).  The Capability-Registry existence
lookup for `agentId`/`serverId` is an external collaborator (spec §6)
and is not modelled. -/
def configOk (n : Node) : Bool :=
  match n.type with
  | "input" => true
  | "output" => true
  | "text" =>
      ((n.config.lookup "operation").getD "")
        ∈ ["uppercase", "lowercase", "reverse", "word_count"]
  | "agent" => ((n.config.lookup "agent_id").getD "") ≠ ""
  | "mcp_server" =>
      ((n.config.lookup "server_name").getD "") ≠ ""
        && ((n.config.lookup "tool_name").getD "") ≠ ""
  | _ => false

/-- Modelled from the spec: `validate(def) -> {valid, issues}` (spec
§4.1; the backend validator behind `POST .../validate` is not in the
repository snapshot).  The six checks, in order, each contributing a
distinct issue string when violated. -/
def validate (p : Pipeline) : ValidationResult :=
  let ids := nodeIds p.nodes
  let issues :=
    (if p.nodes.any (fun n => n.type == "input") then [] else ["missing input node"])
    ++ (if p.nodes.any (fun n => n.type == "output") then [] else ["missing output node"])
    ++ (if p.connections.all (fun c => ids.contains c.fromId && ids.contains c.toId)
        then [] else ["connection references unknown node"])
    ++ (if p.connections.all (fun c => c.fromId != c.toId)
          && p.connections.Pairwise (fun c d => ¬(c.fromId = d.fromId ∧ c.toId = d.toId))
        then [] else ["duplicate or self-loop connection"])
    ++ (if hasCycle p then ["cycle detected"] else [])
    ++ (if p.nodes.all configOk then [] else ["invalid node config"])
  ⟨issues.isEmpty, issues⟩

/-! ## Node executors (spec §4.3) -/

/-- The four `TextTransform` operations (spec §4.3 and the operation
select in src/unnamed/part_017 lines 447-450). -/
inductive TTOp where
  | uppercase
  | lowercase
  | reverse
  | word_count
deriving DecidableEq

/-- Parse the `config.operation` string; exactly the four operation tags
offered by the builder UI are accepted. -/
def parseOp : String → Option TTOp
  | "uppercase" => some .uppercase
  | "lowercase" => some .lowercase
  | "reverse" => some .reverse
  | "word_count" => some .word_count
  | _ => none

/-- Number of space-separated words of a string (for the `word_count`
operation): count of maximal runs of non-space characters. -/
def wordCount (s : String) : Nat :=
  (s.data.foldl
    (fun (acc : Nat × Bool) c =>
      if c = ' ' then (acc.1, false)
      else (if acc.2 then acc.1 else acc.1 + 1, true))
    (0, false)).1

/-- Modelled from the spec: the deterministic string operations of the
TextTransform node executor (spec §4.3; the backend node executors are
not in the repository snapshot). -/
def applyOp : TTOp → String → String
  | .uppercase, s => ⟨s.data.map Char.toUpper⟩
  | .lowercase, s => ⟨s.data.map Char.toLower⟩
  | .reverse, s => ⟨s.data.reverse⟩
  | .word_count, s => toString (wordCount s)

/-- Modelled from the spec: the pure node executors (spec §4.3).  Input
and Output are identity on the payload; TextTransform applies the
configured operation.  AgentCall / McpToolCall reach external
collaborators (LLM gateway, MCP client) and are left to the general
`runN` parameter of the scheduler. -/
def runNodePure (n : Node) (input : String) : Except String String :=
  match n.type with
  | "input" => .ok input
  | "output" => .ok input
  | "text" =>
      match parseOp ((n.config.lookup "operation").getD "") with
      | some op => .ok (applyOp op input)
      | none => .error "unknown operation"
  | _ => .error "external node type not available"

/-! ## Scheduler / executor (spec §4.2) -/

/-- Terminal state of a node in an execution (spec §3 `NodeState`; the
non-terminal Pending/Running states never appear in the final record). -/
inductive NodeState where
  | succeeded (out : String)
  | failed (err : String)
  | skipped
deriving DecidableEq

/-- Per-node state map of an execution record, keyed by node id. -/
abbrev StateMap := List (String × NodeState)

/-- Direct predecessors of a node id, in connection declaration order
(spec §4.2 fixes merge order as declaration order). -/
def predsOf (conns : List Conn) (nid : String) : List String :=
  (conns.filter (fun c => c.toId = nid)).map (·.fromId)

/-- Outputs of the predecessors that succeeded, keyed by predecessor id,
in declaration order. -/
def succOutputs (st : StateMap) (ps : List String) : List (String × String) :=
  ps.filterMap (fun p =>
    match st.lookup p with
    | some (.succeeded o) => some (p, o)
    | _ => none)

/-- Modelled from the spec: a node's input (spec §4.2).  A source node
receives the run's raw input; a single successful predecessor passes its
output verbatim; several are merged into an ordered sequence keyed by
predecessor node id. -/
def mergeInputs (raw : String) (outs : List (String × String)) : String :=
  match outs with
  | [] => raw
  | [(_, v)] => v
  | many => String.intercalate ";" (many.map (fun kv => kv.1 ++ "=" ++ kv.2))

/-- A node is ready once every direct predecessor has a recorded
terminal state. -/
def ready (st : StateMap) (conns : List Conn) (n : Node) : Bool :=
  (predsOf conns n.id).all (fun p => (st.lookup p).isSome)

/-- Modelled from the spec: dispatch of one ready node (spec §4.2 data
flow and failure propagation).  A node none of whose predecessors
succeeded is marked Skipped and never executed; a node with a successful
predecessor (an alternate successful path) executes on the merged
input. -/
def runReady (runN : Node → String → Except String String) (raw : String)
    (conns : List Conn) (st : StateMap) (n : Node) : NodeState :=
  let ps := predsOf conns n.id
  if ps.isEmpty then
    match runN n raw with
    | .ok o => .succeeded o
    | .error e => .failed e
  else
    let outs := succOutputs st ps
    if outs.isEmpty then .skipped
    else
      match runN n (mergeInputs raw outs) with
      | .ok o => .succeeded o
      | .error e => .failed e

/-- Modelled from the spec: the scheduling loop (spec §4.2, Kahn's
algorithm).  Each step picks a pending node whose predecessors are all
terminal, records its state, and removes it from the pending set; the
loop stops when no node is ready.  Concurrent dispatch of independent
ready nodes (spec §5) is serialized here; the per-node states it
produces are the same. -/
def schedule (runN : Node → String → Except String String) (raw : String)
    (conns : List Conn) : Nat → List Node → StateMap → StateMap
  | 0, _, st => st
  | fuel + 1, pending, st =>
      match pending.find? (ready st conns) with
      | none => st
      | some n =>
          schedule runN raw conns fuel
            (pending.filter (fun m => m.id != n.id))
            (st ++ [(n.id, runReady runN raw conns st n)])

/-- The complete per-node state map of one run. -/
def finalStates (runN : Node → String → Except String String)
    (p : Pipeline) (input : String) : StateMap :=
  schedule runN input p.connections p.nodes.length p.nodes []

/-- Overall status of a finished run (spec §3). -/
inductive RunStatus where
  | succeeded
  | failed
deriving DecidableEq

/-- One execution record (spec §3): pipeline name, input payload, the
per-node state map, overall status and final result (the Output node's
output). -/
structure ExecutionRecord where
  pipelineName : String
  input : String
  nodeStates : StateMap
  status : RunStatus
  result : Option String
deriving DecidableEq

/-- Modelled from the spec: assembling the execution record of a run
(spec §4.2): overall status Failed exactly when some node failed, and
the pipeline result is the Output node's recorded output. -/
def executeRec (runN : Node → String → Except String String)
    (p : Pipeline) (input : String) : ExecutionRecord :=
  let st := finalStates runN p input
  { pipelineName := p.name,
    input := input,
    nodeStates := st,
    status := if st.any (fun ks => match ks.2 with | .failed _ => true | _ => false)
              then .failed else .succeeded,
    result := (p.nodes.find? (fun n => n.type == "output")).bind (fun n =>
      match st.lookup n.id with
      | some (.succeeded o) => some o
      | _ => none) }

/-- Errors raised by `execute` before or during a run (spec §4.2). -/
inductive ExecError where
  | validationError
deriving DecidableEq

/-- Modelled from the spec: `execute(def, input) -> ExecutionRecord`
(spec §4.2; the backend executor behind `POST .../execute` is not in
the repository snapshot).  Precondition: `validate(def).valid == true`,
else it fails with `ValidationError` before creating a record and runs
no node. -/
def execute (runN : Node → String → Except String String)
    (p : Pipeline) (input : String) : Except ExecError ExecutionRecord :=
  if (validate p).valid then .ok (executeRec runN p input) else .error .validationError

/-- Modelled from the spec: `execute` against the append-only execution
history (spec §3: one record per run, records never mutated).  A failed
validation creates no record. -/
def executeSt (runN : Node → String → Except String String)
    (p : Pipeline) (input : String) (hist : List ExecutionRecord) :
    Except ExecError ExecutionRecord × List ExecutionRecord :=
  match execute runN p input with
  | .ok r => (.ok r, hist ++ [r])
  | .error e => (.error e, hist)

/-! ## Compatibility analyzer (spec §4.4) -/

/-- The six compatibility levels; the same six tags appear in the UI
color map `getCompatibilityColor` (src/unnamed/part_013 lines 75-85). -/
inductive CompatibilityLevel where
  | PERFECT
  | HIGH
  | MEDIUM
  | LOW
  | MINIMAL
  | INCOMPATIBLE
deriving DecidableEq

/-- Modelled from the spec: the analyzer score (spec §4.4; the backend
analyzer is not in the repository snapshot): size of the tag
intersection divided by size of the tag union (Jaccard index), as an
exact rational. -/
def score (agentTags serverTags : Finset String) : ℚ :=
  ((agentTags ∩ serverTags).card : ℚ) / ((agentTags ∪ serverTags).card : ℚ)

/-- Modelled from the spec: level classification of a score (spec §4.4
thresholds, ties at a boundary going to the higher level). -/
def levelFor (r : ℚ) : CompatibilityLevel :=
  if 9 / 10 ≤ r then .PERFECT
  else if 7 / 10 ≤ r then .HIGH
  else if 2 / 5 ≤ r then .MEDIUM
  else if 1 / 5 ≤ r then .LOW
  else if 0 < r then .MINIMAL
  else .INCOMPATIBLE

/-- Modelled from the spec: `score(agentTags, serverTags) -> {score,
level}` (spec §4.4). -/
def analyzeCompatibility (agentTags serverTags : Finset String) :
    ℚ × CompatibilityLevel :=
  (score agentTags serverTags, levelFor (score agentTags serverTags))

/-! ## Coupling registry (spec §4.5) -/

/-- Coupling lifecycle states (spec §3). -/
inductive CouplingState where
  | Created
  | Tested
  | Active
  | Inactive
deriving DecidableEq

/-- A coupling record (spec §3): registry id, the paired agent and
server, the analyzer level it was admitted with, and its state. -/
structure Coupling where
  cid : Nat
  agentId : String
  serverId : String
  level : CompatibilityLevel
  state : CouplingState
deriving DecidableEq

/-- The coupling registry: the stored couplings and the next fresh
registry id. -/
structure Registry where
  couplings : List Coupling
  nextId : Nat
deriving DecidableEq

/-- Errors raised by registry operations (spec §4.5 / §7). -/
inductive CouplingError where
  | couplingConflict
  | invalidState
  | incompatiblePolicy
  | notFound
deriving DecidableEq

/-- Is some stored coupling for this `(agentId, serverId)` pair
Active? -/
def activeFor (reg : Registry) (a s : String) : Bool :=
  reg.couplings.any (fun c => c.agentId == a && c.serverId == s && c.state == .Active)

/-- Modelled from the spec: `create(agentId, serverId)` (spec §4.5; the
backend registry behind `POST /api/mcp/couplings` is not in the
repository snapshot).  The Active-conflict check and the write are one
atomic step — spec §5 requires create/activate to be serialized per
`(agentId, serverId)` key — so an error writes no partial state.  A pair
whose analyzer level is INCOMPATIBLE is rejected unless the caller
overrides the policy; an admitted coupling starts in state Created. -/
def createCoupling (reg : Registry) (a s : String)
    (lvl : CompatibilityLevel) (override : Bool) : Except CouplingError Registry :=
  if activeFor reg a s then .error .couplingConflict
  else if lvl == .INCOMPATIBLE && !override then .error .incompatiblePolicy
  else .ok ⟨reg.couplings ++ [⟨reg.nextId, a, s, lvl, .Created⟩], reg.nextId + 1⟩

/-- Modelled from the spec: `test(couplingId)` (spec §4.5): a Created
coupling whose test succeeds becomes Tested; any other state is left
unchanged. -/
def testCoupling (reg : Registry) (cid : Nat) (pass : Bool) : Registry :=
  ⟨reg.couplings.map (fun c =>
      if c.cid == cid && c.state == .Created && pass then { c with state := .Tested } else c),
   reg.nextId⟩

/-- Modelled from the spec: `activate(couplingId)` (spec §4.5): rejected
with `InvalidStateError` on a non-Tested coupling, and — to uphold the
one-Active-coupling invariant under the per-key serialization of spec
§5 — rejected with `CouplingConflictError` when the pair already has an
Active coupling. -/
def activateCoupling (reg : Registry) (cid : Nat) : Except CouplingError Registry :=
  match reg.couplings.find? (fun c => c.cid == cid) with
  | none => .error .notFound
  | some c =>
      if c.state ≠ .Tested then .error .invalidState
      else if activeFor reg c.agentId c.serverId then .error .couplingConflict
      else .ok ⟨reg.couplings.map (fun d =>
          if d.cid == cid then { d with state := .Active } else d), reg.nextId⟩

/-- Modelled from the spec: `disconnect(couplingId)` (spec §4.5): an
Active coupling becomes Inactive. -/
def disconnectCoupling (reg : Registry) (cid : Nat) : Registry :=
  ⟨reg.couplings.map (fun c =>
      if c.cid == cid && c.state == .Active then { c with state := .Inactive } else c),
   reg.nextId⟩

/-- One registry request.  Two concurrent requests are serialized per
key (spec §5), so a history of the shared registry is a sequence of
these operations. -/
inductive RegOp where
  | create (a s : String) (lvl : CompatibilityLevel) (override : Bool)
  | test (cid : Nat) (pass : Bool)
  | activate (cid : Nat)
  | disconnect (cid : Nat)

/-- Apply one request; a rejected request leaves the registry
unchanged (no partial state, spec §7). -/
def applyRegOp (reg : Registry) : RegOp → Registry
  | .create a s lvl ov =>
      match createCoupling reg a s lvl ov with
      | .ok r => r
      | .error _ => reg
  | .test cid pass => testCoupling reg cid pass
  | .activate cid =>
      match activateCoupling reg cid with
      | .ok r => r
      | .error _ => reg
  | .disconnect cid => disconnectCoupling reg cid

/-- A serialized history of registry requests. -/
def applyOps (ops : List RegOp) (reg : Registry) : Registry :=
  ops.foldl applyRegOp reg

/-- The registry a fresh process starts from. -/
def emptyRegistry : Registry := ⟨[], 0⟩

/-- Two stored couplings are not both Active for the same
`(agentId, serverId)` pair. -/
def NotBothActive (c d : Coupling) : Prop :=
  c.state = .Active → d.state = .Active →
    c.agentId = d.agentId → c.serverId = d.serverId → False

/-- At most one coupling with state Active per `(agentId, serverId)`
pair (spec §3 invariant). -/
def ActiveUnique (reg : Registry) : Prop :=
  reg.couplings.Pairwise NotBothActive

/-- Registry well-formedness: stored registry ids are pairwise distinct
and below the next fresh id, and the one-Active invariant holds. -/
def RegistryInv (reg : Registry) : Prop :=
  reg.couplings.Pairwise (fun c d => c.cid ≠ d.cid)
    ∧ (∀ c ∈ reg.couplings, c.cid < reg.nextId)
    ∧ ActiveUnique reg

/-! ## System state and the stateful boundary operations (spec §6) -/

/-- The state the boundary operations can touch: the append-only
execution history and the coupling registry (spec §3, §6). -/
structure SysState where
  executions : List ExecutionRecord
  registry : Registry
deriving DecidableEq

/-- Modelled from the spec: `validatePipeline` as a boundary operation
over the system state (spec §4.1: validation never mutates state). -/
def validateSt (p : Pipeline) (s : SysState) : ValidationResult × SysState :=
  (validate p, s)

/-! ## Reachability predicates for failure propagation (spec §4.2) -/

/-- `OnlyVia conns f n`: every backward chain of connections from `n`
reaches the node `f`, i.e. `n` is reachable from the sources only
through `f` — there is no alternate path to `n` avoiding `f`. -/
inductive OnlyVia (conns : List Conn) (f : String) : String → Prop where
  | step : ∀ n, n ≠ f → predsOf conns n ≠ [] →
      (∀ p ∈ predsOf conns n, p ≠ f → OnlyVia conns f p) → OnlyVia conns f n

/-- `SafeReach conns good ids n`: some path of connections from a source
node reaches `n`, and every node id on it is among `ids` and satisfies
`good` — the "alternate successful path" of spec §4.2 when `good` is
"this node's executor does not fail". -/
inductive SafeReach (conns : List Conn) (good : String → Prop)
    (ids : List String) : String → Prop where
  | source : ∀ n, n ∈ ids → predsOf conns n = [] → good n → SafeReach conns good ids n
  | step : ∀ p n, SafeReach conns good ids p → p ∈ predsOf conns n →
      n ∈ ids → good n → SafeReach conns good ids n

/-- The node with this id never fails under `runN`: the executor returns
a value for every input. -/
def NeverFails (runN : Node → String → Except String String)
    (nodes : List Node) (x : String) : Prop :=
  ∀ m ∈ nodes, m.id = x → ∀ inp, ∃ o, runN m inp = .ok o

/-- A path of connections written backwards: the list starts at the
path's target and walks each connection against its direction until a
source node (one with no predecessors).  `TargetChain conns (n :: l)`
says the ids `n :: l` reversed form a path from a source to `n`. -/
def TargetChain (conns : List Conn) : List String → Prop
  | [] => False
  | [a] => predsOf conns a = []
  | a :: b :: l => (⟨b, a⟩ : Conn) ∈ conns ∧ TargetChain conns (b :: l)

/-! ## Connection-list invariants (spec §3) -/

/-- No self-loop and no duplicate `(from,to)` pair in a connection
list. -/
def NoSelfDup (conns : List Conn) : Prop :=
  (∀ c ∈ conns, c.fromId ≠ c.toId)
    ∧ conns.Pairwise (fun c d => ¬(c.fromId = d.fromId ∧ c.toId = d.toId))

/-- The full connection-list invariant of spec §3: no self-loops, no
duplicate pairs, and both endpoints reference existing nodes. -/
def ConnOk (s : BuilderState) : Prop :=
  NoSelfDup s.connections
    ∧ ∀ c ∈ s.connections, c.fromId ∈ nodeIds s.nodes ∧ c.toId ∈ nodeIds s.nodes

/-! ## Helper lemmas -/

theorem isEmpty_false_of_mem {α : Type} {x : α} {l : List α} (h : x ∈ l) :
    l.isEmpty = false := by
  cases l with
  | nil => cases h
  | cons a t => rfl

theorem connectNodes_nodes_eq (s : BuilderState) (f t : String) :
    (connectNodes s f t).nodes = s.nodes := by
  unfold connectNodes
  split_ifs <;> rfl

theorem connectNodes_step (s : BuilderState) (f t : String) :
    connectNodes s f t = s
    ∨ (f ≠ t
        ∧ (∀ c ∈ s.connections, ¬(c.fromId = f ∧ c.toId = t))
        ∧ (connectNodes s f t).connections = s.connections ++ [⟨f, t⟩]) := by
  unfold connectNodes
  split_ifs with h1 h2
  · exact Or.inl rfl
  · exact Or.inl rfl
  · refine Or.inr ⟨by simpa using h1, ?_, rfl⟩
    intro c hc hft
    exact h2 (by
      refine List.any_eq_true.mpr ⟨c, hc, ?_⟩
      simp [hft.1, hft.2])

theorem connectNodes_preserves_noSelfDup (s : BuilderState) (f t : String)
    (h : NoSelfDup s.connections) : NoSelfDup (connectNodes s f t).connections := by
  rcases connectNodes_step s f t with heq | ⟨hne, hnodup, heq⟩
  · rw [heq]; exact h
  · rw [heq]
    constructor
    · intro c hc
      rcases List.mem_append.mp hc with hc | hc
      · exact h.1 c hc
      · simp only [List.mem_singleton] at hc
        subst hc
        exact hne
    · refine List.pairwise_append.mpr ⟨h.2, List.pairwise_singleton _ _, ?_⟩
      intro c hc d hd
      simp only [List.mem_singleton] at hd
      subst hd
      exact hnodup c hc

theorem connectNodes_preserves_connOk (s : BuilderState) (f t : String)
    (h : ConnOk s) (hf : f ∈ nodeIds s.nodes) (ht : t ∈ nodeIds s.nodes) :
    ConnOk (connectNodes s f t) := by
  refine ⟨connectNodes_preserves_noSelfDup s f t h.1, ?_⟩
  intro c hc
  rw [connectNodes_nodes_eq]
  rcases connectNodes_step s f t with heq | ⟨-, -, heq⟩
  · rw [heq] at hc
    exact h.2 c hc
  · rw [heq] at hc
    rcases List.mem_append.mp hc with hc | hc
    · exact h.2 c hc
    · simp only [List.mem_singleton] at hc
      subst hc
      exact ⟨hf, ht⟩

/-! ## Claim theorems -/

/-- C10: `removeNode(id)` removes exactly the node with that id and
exactly the connections incident to it: no remaining connection has the
id as an endpoint, every connection between two other nodes and every
other node is kept, in order. -/
theorem removeNode_frame (s : BuilderState) (nodeId : String) :
    (∀ c, c ∈ (removeNode s nodeId).connections ↔
        c ∈ s.connections ∧ c.fromId ≠ nodeId ∧ c.toId ≠ nodeId)
    ∧ (∀ n, n ∈ (removeNode s nodeId).nodes ↔ n ∈ s.nodes ∧ n.id ≠ nodeId)
    ∧ (removeNode s nodeId).nodes.Sublist s.nodes
    ∧ (removeNode s nodeId).connections.Sublist s.connections := by
  refine ⟨?_, ?_, List.filter_sublist _, List.filter_sublist _⟩
  · intro c
    simp [removeNode, List.mem_filter]
  · intro n
    simp [removeNode, List.mem_filter]

/-- C9: the code is wrong here — `addNode` derives the node id from the
millisecond clock (`node-${Date.now()}`), so two nodes added in the same
millisecond get the same id: the claimed pairwise distinctness fails. -/
theorem addNode_duplicate_ids :
    nodeIds (addNode (addNode ⟨[], []⟩ "text" 1750000000000) "text" 1750000000000).nodes
        = ["node-1750000000000", "node-1750000000000"]
      ∧ ¬ (nodeIds (addNode (addNode ⟨[], []⟩ "text" 1750000000000) "text"
            1750000000000).nodes).Nodup := by
  decide

/-- C6 counterexample: `connectNodes` never checks that its endpoints
are existing node ids, so a connect call with unknown ids stores a
connection whose endpoints reference no node. -/
theorem connect_ghost_counterexample :
    (⟨"ghost-a", "ghost-b"⟩ : Conn)
        ∈ (connectNodes defaultBuilderState "ghost-a" "ghost-b").connections
      ∧ "ghost-a" ∉ nodeIds (connectNodes defaultBuilderState "ghost-a" "ghost-b").nodes := by
  decide

/-- C6 (amended): after any sequence of connect operations the stored
connections have no self-loop and no duplicate `(from,to)` pair; and
when every connect call passes ids of existing nodes — as the builder's
only call site does — both endpoints of every stored connection
reference existing nodes as well. -/
theorem connect_invariants :
    (∀ (s : BuilderState) (ops : List (String × String)),
        NoSelfDup s.connections →
        NoSelfDup (ops.foldl (fun t o => connectNodes t o.1 o.2) s).connections)
    ∧ (∀ (s : BuilderState) (ops : List (String × String)),
        ConnOk s →
        (∀ o ∈ ops, o.1 ∈ nodeIds s.nodes ∧ o.2 ∈ nodeIds s.nodes) →
        ConnOk (ops.foldl (fun t o => connectNodes t o.1 o.2) s)) := by
  constructor
  · intro s ops
    induction ops generalizing s with
    | nil => exact fun h => h
    | cons o rest ih =>
        intro h
        exact ih _ (connectNodes_preserves_noSelfDup s o.1 o.2 h)
  · intro s ops
    induction ops generalizing s with
    | nil => exact fun h _ => h
    | cons o rest ih =>
        intro h hops
        have hstep := connectNodes_preserves_connOk s o.1 o.2 h
          (hops o (List.mem_cons_self o rest)).1 (hops o (List.mem_cons_self o rest)).2
        refine ih _ hstep ?_
        intro o' ho'
        rw [connectNodes_nodes_eq]
        exact hops o' (List.mem_cons_of_mem o ho')

/-- C6 witness: the amended invariant instantiated on the builder's
default pipeline with a concrete connect call between existing nodes. -/
theorem connect_invariants_witness :
    ConnOk ([("node-1", "node-3")].foldl
      (fun t o => connectNodes t o.1 o.2) defaultBuilderState) :=
  connect_invariants.2 defaultBuilderState [("node-1", "node-3")]
    (by constructor <;> first | decide | (refine ⟨?_, ?_⟩ <;> decide))
    (by decide)

/-- C2: an invalid definition is never accepted by the Executor: when
validation fails, `execute` returns `ValidationError`, appends no
execution record and runs no node; in particular the pipeline with
edges `A→B, B→A` fails validation with a cycle issue and is rejected. -/
theorem executor_rejects_invalid :
    (∀ (runN : Node → String → Except String String) (p : Pipeline)
        (input : String) (hist : List ExecutionRecord),
        (validate p).valid = false →
        executeSt runN p input hist = (.error .validationError, hist))
    ∧ (validate cyclePipeline).valid = false
    ∧ "cycle detected" ∈ (validate cyclePipeline).issues
    ∧ ∀ (runN : Node → String → Except String String) (input : String)
        (hist : List ExecutionRecord),
        executeSt runN cyclePipeline input hist = (.error .validationError, hist) := by
  have key : ∀ (runN : Node → String → Except String String) (p : Pipeline)
      (input : String) (hist : List ExecutionRecord),
      (validate p).valid = false →
      executeSt runN p input hist = (.error .validationError, hist) := by
    intro runN p input hist h
    simp [executeSt, execute, h]
  exact ⟨key, by decide, by decide, fun runN input hist => key runN _ input hist (by decide)⟩

/-- C2 witness: the cyclic pipeline is rejected with `ValidationError`
and the execution history stays empty. -/
theorem executor_rejects_invalid_witness :
    executeSt runNodePure cyclePipeline "hello" [] = (.error .validationError, []) :=
  executor_rejects_invalid.1 runNodePure cyclePipeline "hello" [] (by decide)

/-- C5: executing Input → TextTransform(uppercase) → Output on
`"hello world"` produces `"HELLO WORLD"`, and the TextTransform
operation tag is drawn from exactly
{uppercase, lowercase, reverse, word_count}. -/
theorem uppercase_pipeline_spec :
    (∃ r, execute runNodePure testPipeline "hello world" = .ok r
        ∧ r.result = some "HELLO WORLD"
        ∧ r.status = .succeeded)
    ∧ ∀ op : String,
        (parseOp op).isSome ↔ op ∈ ["uppercase", "lowercase", "reverse", "word_count"] := by
  constructor
  · refine ⟨executeRec runNodePure testPipeline "hello world", ?_, by decide, by decide⟩
    have hv : (validate testPipeline).valid = true := by decide
    simp [execute, hv]
  · intro op
    unfold parseOp
    split <;> simp_all

/-- C7: a pipeline with no Output node fails validation and reports the
distinct issue string "missing output node"; symmetrically, one with no
Input node fails the at-least-one-Input check. -/
theorem missing_io_validation (p : Pipeline) :
    ((∀ n ∈ p.nodes, n.type ≠ "output") →
        (validate p).valid = false ∧ "missing output node" ∈ (validate p).issues)
    ∧ ((∀ n ∈ p.nodes, n.type ≠ "input") →
        (validate p).valid = false ∧ "missing input node" ∈ (validate p).issues) := by
  constructor
  · intro h
    have hany : p.nodes.any (fun n => n.type == "output") = false := by
      rw [List.any_eq_false]
      intro n hn
      simp [h n hn]
    have hmem : "missing output node" ∈ (validate p).issues := by
      simp [validate, hany]
    exact ⟨isEmpty_false_of_mem hmem, hmem⟩
  · intro h
    have hany : p.nodes.any (fun n => n.type == "input") = false := by
      rw [List.any_eq_false]
      intro n hn
      simp [h n hn]
    have hmem : "missing input node" ∈ (validate p).issues := by
      simp [validate, hany]
    exact ⟨isEmpty_false_of_mem hmem, hmem⟩

/-- C7 witness: a concrete pipeline with an Input node and no Output
node fails validation with the "missing output node" issue. -/
theorem missing_io_validation_witness :
    (validate ⟨"p", "", [⟨"n1", "input", "Input", []⟩], []⟩).valid = false
      ∧ "missing output node" ∈ (validate ⟨"p", "", [⟨"n1", "input", "Input", []⟩], []⟩).issues :=
  (missing_io_validation ⟨"p", "", [⟨"n1", "input", "Input", []⟩], []⟩).1 (by decide)

/-- C8: `validate` is pure and idempotent: as a boundary operation it
leaves the system state unchanged, a repeated call returns the identical
result, and the result depends only on the definition's nodes and
connections. -/
theorem validate_pure_idempotent (p : Pipeline) (s : SysState) :
    (validateSt p s).2 = s
    ∧ validateSt p (validateSt p s).2 = validateSt p s
    ∧ ∀ q : Pipeline, q.nodes = p.nodes → q.connections = p.connections →
        (validateSt q s).1 = (validateSt p s).1 := by
  refine ⟨rfl, rfl, ?_⟩
  intro q hn hc
  show validate q = validate p
  obtain ⟨n1, d1, ns1, cs1⟩ := p
  obtain ⟨n2, d2, ns2, cs2⟩ := q
  simp only at hn hc
  subst hn
  subst hc
  rfl

/-- C8 witness: validating the builder's test pipeline twice against a
fresh system state mutates nothing and returns identical results, also
under a changed cosmetic name. -/
theorem validate_pure_idempotent_witness :
    (validateSt testPipeline ⟨[], emptyRegistry⟩).2 = ⟨[], emptyRegistry⟩
      ∧ (validateSt ⟨"renamed", "other", testPipeline.nodes, testPipeline.connections⟩
            ⟨[], emptyRegistry⟩).1
          = (validateSt testPipeline ⟨[], emptyRegistry⟩).1 :=
  ⟨(validate_pure_idempotent testPipeline ⟨[], emptyRegistry⟩).1,
   (validate_pure_idempotent testPipeline ⟨[], emptyRegistry⟩).2.2
     ⟨"renamed", "other", testPipeline.nodes, testPipeline.connections⟩ rfl rfl⟩

/-- C1: the analyzer's score is the Jaccard index of the two tag sets,
lies in [0,1], and the level classification follows the spec thresholds
with ties at a boundary going to the higher level. -/
theorem compatibility_analyzer_spec (a s : Finset String) :
    analyzeCompatibility a s = (score a s, levelFor (score a s))
    ∧ score a s = ((a ∩ s).card : ℚ) / ((a ∪ s).card : ℚ)
    ∧ 0 ≤ score a s ∧ score a s ≤ 1
    ∧ (9 / 10 ≤ score a s → levelFor (score a s) = .PERFECT)
    ∧ (7 / 10 ≤ score a s → score a s < 9 / 10 → levelFor (score a s) = .HIGH)
    ∧ (2 / 5 ≤ score a s → score a s < 7 / 10 → levelFor (score a s) = .MEDIUM)
    ∧ (1 / 5 ≤ score a s → score a s < 2 / 5 → levelFor (score a s) = .LOW)
    ∧ (0 < score a s → score a s < 1 / 5 → levelFor (score a s) = .MINIMAL)
    ∧ (score a s = 0 ↔ levelFor (score a s) = .INCOMPATIBLE) := by
  have h0 : (0 : ℚ) ≤ score a s :=
    div_nonneg (by positivity) (by positivity)
  refine ⟨rfl, rfl, h0, ?_, ?_, ?_, ?_, ?_, ?_, ?_⟩
  · rcases Nat.eq_zero_or_pos (a ∪ s).card with h | h
    · simp [score, h]
    · rw [score, div_le_one (by exact_mod_cast h)]
      exact_mod_cast Finset.card_le_card Finset.inter_subset_union
  · intro h1
    unfold levelFor
    rw [if_pos h1]
  · intro h1 h2
    unfold levelFor
    rw [if_neg (not_le.mpr h2), if_pos h1]
  · intro h1 h2
    have h3 : ¬(9 / 10 : ℚ) ≤ score a s := by linarith
    unfold levelFor
    rw [if_neg h3, if_neg (not_le.mpr h2), if_pos h1]
  · intro h1 h2
    have h3 : ¬(9 / 10 : ℚ) ≤ score a s := by linarith
    have h4 : ¬(7 / 10 : ℚ) ≤ score a s := by linarith
    unfold levelFor
    rw [if_neg h3, if_neg h4, if_neg (not_le.mpr h2), if_pos h1]
  · intro h1 h2
    have h3 : ¬(9 / 10 : ℚ) ≤ score a s := by linarith
    have h4 : ¬(7 / 10 : ℚ) ≤ score a s := by linarith
    have h5 : ¬(2 / 5 : ℚ) ≤ score a s := by linarith
    unfold levelFor
    rw [if_neg h3, if_neg h4, if_neg h5, if_neg (not_le.mpr h2), if_pos h1]
  · constructor
    · intro hz
      have : ¬(0 : ℚ) < score a s := by rw [hz]; exact lt_irrefl 0
      simp only [levelFor, hz]
      norm_num
    · intro hlev
      by_contra hne
      have hpos : 0 < score a s := lt_of_le_of_ne h0 (Ne.symm hne)
      unfold levelFor at hlev
      split_ifs at hlev

/-- C1 witness: two disjoint singleton tag sets score 0 and classify as
INCOMPATIBLE. -/
theorem compatibility_analyzer_spec_witness :
    levelFor (score {"a"} {"b"}) = .INCOMPATIBLE :=
  (compatibility_analyzer_spec {"a"} {"b"}).2.2.2.2.2.2.2.2.2.mp
    (by
      have hc : (({"a"} : Finset String) ∩ {"b"}).card = 0 := by decide
      have hu : (({"a"} : Finset String) ∪ {"b"}).card = 2 := by decide
      rw [score, hc, hu]
      norm_num)

/-! ## Registry invariant preservation (spec §4.5) -/

theorem eq_of_pairwise_cid {l : List Coupling}
    (hl : l.Pairwise (fun c d => c.cid ≠ d.cid)) {c d : Coupling}
    (hc : c ∈ l) (hd : d ∈ l) (h : c.cid = d.cid) : c = d := by
  induction l with
  | nil => cases hc
  | cons a t ih =>
      rw [List.pairwise_cons] at hl
      rcases List.mem_cons.mp hc with hc1 | hc1 <;>
        rcases List.mem_cons.mp hd with hd1 | hd1
      · rw [hc1, hd1]
      · subst hc1
        exact absurd h (hl.1 d hd1)
      · subst hd1
        exact absurd h.symm (hl.1 c hc1)
      · exact ih hl.2 hc1 hd1

theorem activeUnique_map_of_no_new_active (reg : Registry)
    (f : Coupling → Coupling)
    (hpair : ∀ c, (f c).agentId = c.agentId ∧ (f c).serverId = c.serverId)
    (hact : ∀ c, (f c).state = .Active → c.state = .Active)
    (h : ActiveUnique reg) :
    (reg.couplings.map f).Pairwise NotBothActive := by
  rw [List.pairwise_map]
  refine h.imp ?_
  intro a b hab h1 h2 h3 h4
  rw [(hpair a).1, (hpair b).1] at h3
  rw [(hpair a).2, (hpair b).2] at h4
  exact hab (hact a h1) (hact b h2) h3 h4

/-- A state-editing pass over the stored couplings that keeps ids and
pairs and makes no coupling freshly Active preserves the registry
invariant. -/
theorem registryInv_map_state (reg : Registry) (f : Coupling → Coupling)
    (hcid : ∀ c, (f c).cid = c.cid)
    (hpair : ∀ c, (f c).agentId = c.agentId ∧ (f c).serverId = c.serverId)
    (hact : ∀ c, (f c).state = .Active → c.state = .Active)
    (h : RegistryInv reg) :
    RegistryInv ⟨reg.couplings.map f, reg.nextId⟩ := by
  obtain ⟨h1, h2, h3⟩ := h
  refine ⟨?_, ?_, ?_⟩
  · rw [List.pairwise_map]
    refine h1.imp ?_
    intro a b hab
    rw [hcid a, hcid b]
    exact hab
  · intro c hc
    rcases List.mem_map.mp hc with ⟨d, hd, rfl⟩
    rw [hcid d]
    exact h2 d hd
  · exact activeUnique_map_of_no_new_active reg f hpair hact h3

theorem registryInv_applyRegOp (reg : Registry) (op : RegOp)
    (h : RegistryInv reg) : RegistryInv (applyRegOp reg op) := by
  obtain ⟨hcid, hlt, hact⟩ := h
  cases op with
  | create a s lvl ov =>
      by_cases h1 : activeFor reg a s = true
      · simpa [applyRegOp, createCoupling, h1] using ⟨hcid, hlt, hact⟩
      · rw [Bool.not_eq_true] at h1
        by_cases h2 : (lvl == .INCOMPATIBLE && !ov) = true
        · simpa [applyRegOp, createCoupling, h1, h2] using ⟨hcid, hlt, hact⟩
        · rw [Bool.not_eq_true] at h2
          have happ : applyRegOp reg (.create a s lvl ov)
              = ⟨reg.couplings ++ [⟨reg.nextId, a, s, lvl, .Created⟩], reg.nextId + 1⟩ := by
            simp [applyRegOp, createCoupling, h1, h2]
          rw [happ]
          refine ⟨?_, ?_, ?_⟩
          · rw [List.pairwise_append]
            refine ⟨hcid, List.pairwise_singleton _ _, ?_⟩
            intro c hc d hd
            simp only [List.mem_singleton] at hd
            subst hd
            exact Nat.ne_of_lt (hlt c hc)
          · intro c hc
            rcases List.mem_append.mp hc with hc | hc
            · exact Nat.lt_succ_of_lt (hlt c hc)
            · simp only [List.mem_singleton] at hc
              subst hc
              exact Nat.lt_succ_self _
          · rw [ActiveUnique, List.pairwise_append]
            refine ⟨hact, List.pairwise_singleton _ _, ?_⟩
            intro c hc d hd
            simp only [List.mem_singleton] at hd
            subst hd
            intro _ hdAct _ _
            simp [NotBothActive] at hdAct
  | test cid pass =>
      refine registryInv_map_state reg _ ?_ ?_ ?_ ⟨hcid, hlt, hact⟩
      · intro c
        split <;> rfl
      · intro c
        constructor <;> (split <;> rfl)
      · intro c
        split
        · intro hc
          simp at hc
        · exact id
  | activate cid =>
      cases hA : activateCoupling reg cid with
      | error e =>
          simpa [applyRegOp, hA] using ⟨hcid, hlt, hact⟩
      | ok r =>
          have happ : applyRegOp reg (.activate cid) = r := by
            simp [applyRegOp, hA]
          rw [happ]
          unfold activateCoupling at hA
          cases hfind : reg.couplings.find? (fun c => c.cid == cid) with
          | none =>
              rw [hfind] at hA
              cases hA
          | some c =>
              rw [hfind] at hA
              simp only at hA
              by_cases hTested : c.state ≠ CouplingState.Tested
              · rw [if_pos hTested] at hA
                cases hA
              · rw [if_neg hTested] at hA
                by_cases hActive : activeFor reg c.agentId c.serverId = true
                · rw [if_pos hActive] at hA
                  cases hA
                · rw [if_neg hActive] at hA
                  injection hA with hr
                  subst hr
                  have hc_mem : c ∈ reg.couplings := List.mem_of_find?_eq_some hfind
                  have hc_cid : c.cid = cid := by
                    have hp := List.find?_some hfind
                    simpa using hp
                  have hmap : ∀ d : Coupling,
                      ((if d.cid == cid then { d with state := CouplingState.Active } else d) :
                        Coupling).cid = d.cid := by
                    intro d
                    split <;> rfl
                  refine ⟨?_, ?_, ?_⟩
                  · rw [List.pairwise_map]
                    refine hcid.imp ?_
                    intro a b hab
                    rw [hmap a, hmap b]
                    exact hab
                  · intro x hx
                    rcases List.mem_map.mp hx with ⟨d, hd, rfl⟩
                    rw [hmap d]
                    exact hlt d hd
                  · rw [ActiveUnique, List.pairwise_map]
                    have hboth := hcid.and hact
                    refine hboth.imp_of_mem ?_
                    intro a b ha hb hab
                    obtain ⟨hab_cid, hab_P⟩ := hab
                    intro h1 h2 h3 h4
                    by_cases hA1 : (a.cid == cid) = true <;>
                      by_cases hB1 : (b.cid == cid) = true
                    · exact hab_cid ((beq_iff_eq.mp hA1).trans (beq_iff_eq.mp hB1).symm)
                    · have hac : a = c :=
                        eq_of_pairwise_cid hcid ha hc_mem
                          ((beq_iff_eq.mp hA1).trans hc_cid.symm)
                      simp only [if_pos hA1, if_neg hB1] at h1 h2 h3 h4
                      refine absurd (List.any_eq_true.mpr ⟨b, hb, ?_⟩) hActive
                      simp only [Bool.and_eq_true, beq_iff_eq]
                      exact ⟨⟨h3.symm.trans (congrArg Coupling.agentId hac),
                        h4.symm.trans (congrArg Coupling.serverId hac)⟩, h2⟩
                    · have hbc : b = c :=
                        eq_of_pairwise_cid hcid hb hc_mem
                          ((beq_iff_eq.mp hB1).trans hc_cid.symm)
                      simp only [if_neg hA1, if_pos hB1] at h1 h2 h3 h4
                      refine absurd (List.any_eq_true.mpr ⟨a, ha, ?_⟩) hActive
                      simp only [Bool.and_eq_true, beq_iff_eq]
                      exact ⟨⟨h3.trans (congrArg Coupling.agentId hbc),
                        h4.trans (congrArg Coupling.serverId hbc)⟩, h1⟩
                    · simp only [if_neg hA1, if_neg hB1] at h1 h2 h3 h4
                      exact hab_P h1 h2 h3 h4
  | disconnect cid =>
      refine registryInv_map_state reg _ ?_ ?_ ?_ ⟨hcid, hlt, hact⟩
      · intro c
        split <;> rfl
      · intro c
        constructor <;> (split <;> rfl)
      · intro c
        split
        · intro hc
          simp at hc
        · exact id

theorem registryInv_applyOps (ops : List RegOp) (reg : Registry)
    (h : RegistryInv reg) : RegistryInv (applyOps ops reg) := by
  induction ops generalizing reg with
  | nil => exact h
  | cons op rest ih => exact ih _ (registryInv_applyRegOp reg op h)

theorem registryInv_empty : RegistryInv emptyRegistry := by
  refine ⟨List.Pairwise.nil, ?_, List.Pairwise.nil⟩
  intro c hc
  cases hc

/-- C3: at most one Active coupling per `(agentId, serverId)` pair holds
after every serialized history of registry requests — two concurrent
create calls are serialized per key by the atomic check-and-write (spec
§5), so this covers them — and a create call for a pair that already
has an Active coupling is rejected with `CouplingConflictError` and
writes no state at all. -/
theorem coupling_active_unique :
    (∀ ops : List RegOp, ActiveUnique (applyOps ops emptyRegistry))
    ∧ ∀ (reg : Registry) (a s : String) (lvl : CompatibilityLevel) (ov : Bool),
        activeFor reg a s = true →
        createCoupling reg a s lvl ov = .error .couplingConflict
          ∧ applyRegOp reg (.create a s lvl ov) = reg := by
  constructor
  · intro ops
    exact (registryInv_applyOps ops emptyRegistry registryInv_empty).2.2
  · intro reg a s lvl ov h
    constructor
    · simp [createCoupling, h]
    · simp [applyRegOp, createCoupling, h]

/-- C3 witness: the serialized history of two create calls for the same
pair, each tested and activated, ends with exactly one Active coupling;
and a concrete create against a pair that is already Active is rejected
with `CouplingConflictError`. -/
theorem coupling_active_unique_witness :
    ActiveUnique (applyOps
        [.create "agent-1" "server-1" .HIGH false,
         .create "agent-1" "server-1" .HIGH false,
         .test 0 true, .activate 0, .test 1 true, .activate 1] emptyRegistry)
      ∧ createCoupling ⟨[⟨0, "agent-1", "server-1", .HIGH, .Active⟩], 1⟩
          "agent-1" "server-1" .HIGH false = .error .couplingConflict :=
  ⟨coupling_active_unique.1 _,
   (coupling_active_unique.2 ⟨[⟨0, "agent-1", "server-1", .HIGH, .Active⟩], 1⟩
      "agent-1" "server-1" .HIGH false (by decide)).1⟩

/-! ## Scheduler lemmas (spec §4.2) -/

theorem lookup_append_left {k : String} {v : NodeState} {st t : StateMap}
    (h : st.lookup k = some v) : (st ++ t).lookup k = some v := by
  induction st with
  | nil => simp [List.lookup] at h
  | cons p rest ih =>
      obtain ⟨pk, pv⟩ := p
      simp only [List.cons_append, List.lookup_cons] at h ⊢
      cases hk : (k == pk) with
      | true => rw [hk] at h; exact h
      | false => rw [hk] at h; exact ih h

theorem lookup_append_right {k : String} {st t : StateMap}
    (h : st.lookup k = none) : (st ++ t).lookup k = t.lookup k := by
  induction st with
  | nil => rfl
  | cons p rest ih =>
      obtain ⟨pk, pv⟩ := p
      rw [List.lookup_cons] at h
      simp only [List.cons_append, List.lookup_cons]
      cases hk : (k == pk) with
      | true => rw [hk] at h; exact Option.noConfusion h
      | false => rw [hk] at h; exact ih h

theorem schedule_succ (runN : Node → String → Except String String)
    (raw : String) (conns : List Conn) (fuel : Nat) (pending : List Node)
    (st : StateMap) :
    schedule runN raw conns (fuel + 1) pending st
      = match pending.find? (ready st conns) with
        | none => st
        | some n =>
            schedule runN raw conns fuel (pending.filter (fun m => m.id != n.id))
              (st ++ [(n.id, runReady runN raw conns st n)]) := rfl

theorem schedule_extends (runN : Node → String → Except String String)
    (raw : String) (conns : List Conn) :
    ∀ (fuel : Nat) (pending : List Node) (st : StateMap),
      ∃ t, st ++ t = schedule runN raw conns fuel pending st := by
  intro fuel
  induction fuel with
  | zero => exact fun pending st => ⟨[], List.append_nil st⟩
  | succ fuel ih =>
      intro pending st
      rw [schedule_succ]
      cases hfind : pending.find? (ready st conns) with
      | none => exact ⟨[], List.append_nil st⟩
      | some n =>
          obtain ⟨t, ht⟩ := ih (pending.filter (fun m => m.id != n.id))
            (st ++ [(n.id, runReady runN raw conns st n)])
          exact ⟨[(n.id, runReady runN raw conns st n)] ++ t, by
            rw [← List.append_assoc, ht]⟩

theorem lookup_stable {runN : Node → String → Except String String}
    {raw : String} {conns : List Conn} {fuel : Nat} {pending : List Node}
    {st : StateMap} {k : String} {v : NodeState}
    (h : st.lookup k = some v) :
    (schedule runN raw conns fuel pending st).lookup k = some v := by
  obtain ⟨t, ht⟩ := schedule_extends runN raw conns fuel pending st
  rw [← ht]
  exact lookup_append_left h

theorem exists_ready_node (conns : List Conn) (order : List String)
    (pending : List Node) (st : StateMap) (hne : pending ≠ [])
    (hedge : ∀ m ∈ pending, ∀ q ∈ predsOf conns m.id,
      order.indexOf q < order.indexOf m.id)
    (hcov : ∀ m ∈ pending, ∀ q ∈ predsOf conns m.id,
      (st.lookup q).isSome = true ∨ ∃ m' ∈ pending, m'.id = q) :
    ∃ m ∈ pending, ready st conns m = true := by
  obtain ⟨m, hm⟩ := Option.ne_none_iff_exists'.mp
    (fun h => hne (List.argmin_eq_none.mp h) :
      pending.argmin (fun m => order.indexOf m.id) ≠ none)
  have hmem : m ∈ pending := List.argmin_mem hm
  refine ⟨m, hmem, ?_⟩
  rw [ready, List.all_eq_true]
  intro q hq
  rcases hcov m hmem q hq with h | ⟨m', hm', hq'⟩
  · exact h
  · exfalso
    have h1 : order.indexOf q < order.indexOf m.id := hedge m hmem q hq
    have h2 : order.indexOf m.id ≤ order.indexOf m'.id :=
      List.le_of_mem_argmin hm' hm
    rw [hq'] at h2
    exact absurd h1 (not_lt.mpr h2)

theorem schedule_complete (runN : Node → String → Except String String)
    (raw : String) (conns : List Conn) (order : List String) :
    ∀ (fuel : Nat) (pending : List Node) (st : StateMap),
      pending.length ≤ fuel →
      (∀ m ∈ pending, ∀ q ∈ predsOf conns m.id,
        order.indexOf q < order.indexOf m.id) →
      (∀ m ∈ pending, ∀ q ∈ predsOf conns m.id,
        (st.lookup q).isSome = true ∨ ∃ m' ∈ pending, m'.id = q) →
      ∀ m ∈ pending,
        ((schedule runN raw conns fuel pending st).lookup m.id).isSome = true := by
  intro fuel
  induction fuel with
  | zero =>
      intro pending st hfuel _ _ m hm
      rw [Nat.le_zero, List.length_eq_zero] at hfuel
      subst hfuel
      cases hm
  | succ fuel ih =>
      intro pending st hfuel hedge hcov m hm
      have hne : pending ≠ [] := List.ne_nil_of_mem hm
      obtain ⟨n0, hn0, hready0⟩ := exists_ready_node conns order pending st hne hedge hcov
      have hfind : pending.find? (ready st conns) ≠ none := by
        rw [Ne, List.find?_eq_none]
        intro hall
        exact absurd hready0 (by simpa using hall n0 hn0)
      obtain ⟨n, hfindn⟩ := Option.ne_none_iff_exists'.mp hfind
      set st' := st ++ [(n.id, runReady runN raw conns st n)] with hst'
      set pending' := pending.filter (fun m => m.id != n.id) with hpending'
      have hsched : schedule runN raw conns (fuel + 1) pending st
          = schedule runN raw conns fuel pending' st' := by
        rw [schedule_succ, hfindn]
      rw [hsched]
      have hnmem : n ∈ pending := List.mem_of_find?_eq_some hfindn
      have hmemst' : (st'.lookup n.id).isSome = true := by
        cases hcase : st.lookup n.id with
        | some v => simp [hst', lookup_append_left hcase]
        | none =>
            rw [hst', lookup_append_right hcase]
            simp [List.lookup_cons]
      have hfuel' : pending'.length ≤ fuel := by
        have : pending'.length < pending.length := by
          refine List.length_filter_lt_length_iff_exists.mpr ⟨n, hnmem, ?_⟩
          simp
        omega
      have hedge' : ∀ m ∈ pending', ∀ q ∈ predsOf conns m.id,
          order.indexOf q < order.indexOf m.id := by
        intro m hm' q hq
        exact hedge m (List.mem_of_mem_filter hm') q hq
      have hcov' : ∀ m ∈ pending', ∀ q ∈ predsOf conns m.id,
          (st'.lookup q).isSome = true ∨ ∃ m' ∈ pending', m'.id = q := by
        intro m hm' q hq
        rcases hcov m (List.mem_of_mem_filter hm') q hq with h | ⟨m', hm'', hq'⟩
        · left
          rcases Option.isSome_iff_exists.mp h with ⟨v, hv⟩
          rw [hst']
          simp [lookup_append_left hv]
        · by_cases hcid : m'.id = n.id
          · left
            rw [← hq', hcid]
            exact hmemst'
          · right
            refine ⟨m', List.mem_filter.mpr ⟨hm'', ?_⟩, hq'⟩
            simpa using hcid
      by_cases hcase : m.id = n.id
      · rcases Option.isSome_iff_exists.mp hmemst' with ⟨v, hv⟩
        rw [hcase]
        obtain ⟨t, ht⟩ := schedule_extends runN raw conns fuel pending' st'
        rw [← ht]
        simp [lookup_append_left hv]
      · have hm' : m ∈ pending' := by
          rw [hpending']
          refine List.mem_filter.mpr ⟨hm, ?_⟩
          simpa using hcase
        exact ih pending' st' hfuel' hedge' hcov' m hm'

theorem schedule_spec (runN : Node → String → Except String String)
    (raw : String) (conns : List Conn) :
    ∀ (fuel : Nat) (pending : List Node) (st : StateMap) (k : String) (s : NodeState),
      (schedule runN raw conns fuel pending st).lookup k = some s →
      st.lookup k = some s ∨
      ∃ (stAt : StateMap) (n : Node), n ∈ pending ∧ n.id = k
        ∧ ready stAt conns n = true
        ∧ s = runReady runN raw conns stAt n
        ∧ ∃ t, stAt ++ t = schedule runN raw conns fuel pending st := by
  intro fuel
  induction fuel with
  | zero => exact fun pending st k s h => Or.inl h
  | succ fuel ih =>
      intro pending st k s h
      rw [schedule_succ] at h
      cases hfind : pending.find? (ready st conns) with
      | none =>
          rw [hfind] at h
          exact Or.inl h
      | some n =>
          rw [hfind] at h
          rcases ih (pending.filter (fun m => m.id != n.id))
              (st ++ [(n.id, runReady runN raw conns st n)]) k s h with hL | hR
          · cases hcase : st.lookup k with
            | some w =>
                exact Or.inl ((lookup_append_left hcase).symm.trans hL)
            | none =>
                rw [lookup_append_right hcase] at hL
                right
                have hkn : (k == n.id) = true := by
                  by_contra hne
                  rw [Bool.not_eq_true] at hne
                  rw [List.lookup_cons, hne] at hL
                  simp [List.lookup] at hL
                have hk : k = n.id := by simpa using hkn
                have hs : s = runReady runN raw conns st n := by
                  rw [List.lookup_cons, hkn] at hL
                  exact (Option.some.inj hL).symm
                obtain ⟨t, ht⟩ := schedule_extends runN raw conns fuel
                  (pending.filter (fun m => m.id != n.id))
                  (st ++ [(n.id, runReady runN raw conns st n)])
                refine ⟨st, n, List.mem_of_find?_eq_some hfind, hk.symm,
                  List.find?_some hfind, hs,
                  [(n.id, runReady runN raw conns st n)] ++ t, ?_⟩
                rw [schedule_succ, hfind, ← List.append_assoc]
                exact ht
          · obtain ⟨stAt, n', hmem', hid', hready', hs', t, ht⟩ := hR
            right
            refine ⟨stAt, n', List.mem_of_mem_filter hmem', hid', hready', hs', t, ?_⟩
            rw [schedule_succ, hfind]
            exact ht

theorem isEmpty_false_of_ne_nil {α : Type} {l : List α} (h : l ≠ []) :
    l.isEmpty = false := by
  cases l with
  | nil => exact absurd rfl h
  | cons a t => rfl

theorem mem_predsOf {conns : List Conn} {nid q : String} :
    q ∈ predsOf conns nid ↔ (⟨q, nid⟩ : Conn) ∈ conns := by
  constructor
  · intro hq
    unfold predsOf at hq
    rw [List.mem_map] at hq
    obtain ⟨c, hc, hfrom⟩ := hq
    rw [List.mem_filter] at hc
    have hto : c.toId = nid := by simpa using hc.2
    have hcq : c = ⟨q, nid⟩ := by
      obtain ⟨cf, ct⟩ := c
      simp only at hfrom hto
      rw [hfrom, hto]
    rw [← hcq]
    exact hc.1
  · intro hc
    unfold predsOf
    rw [List.mem_map]
    exact ⟨⟨q, nid⟩, List.mem_filter.mpr ⟨hc, by simp⟩, rfl⟩

/-- C4: failure propagation and completeness of a run (spec §4.2, §7).
With an acyclic connection graph (witnessed by a topological index
`order`) whose connections reference pipeline nodes: (1) the run
terminates with a state — Succeeded, Failed or Skipped — recorded for
every node; (2) any node reachable from a failed node `f` exclusively
through `f` is marked Skipped and never executed; (3) any node reachable
from a source along a path of never-failing nodes — an alternate
successful path — still executes and succeeds; (4) `OnlyVia` indeed
means every backwards chain of connections out of the node passes
through `f`, i.e. there is no alternate path avoiding `f`. -/
theorem failure_propagation_spec
    (runN : Node → String → Except String String) (p : Pipeline) (input : String)
    (order : List String)
    (horder : ∀ c ∈ p.connections, order.indexOf c.fromId < order.indexOf c.toId)
    (hends : ∀ c ∈ p.connections,
      c.fromId ∈ nodeIds p.nodes ∧ c.toId ∈ nodeIds p.nodes) :
    (∀ m ∈ p.nodes, ∃ s, (finalStates runN p input).lookup m.id = some s)
    ∧ (∀ f e nid, (finalStates runN p input).lookup f = some (.failed e) →
        OnlyVia p.connections f nid →
        (finalStates runN p input).lookup nid = some .skipped)
    ∧ (∀ nid, SafeReach p.connections (NeverFails runN p.nodes) (nodeIds p.nodes) nid →
        ∃ o, (finalStates runN p input).lookup nid = some (.succeeded o))
    ∧ (∀ f nid, OnlyVia p.connections f nid →
        ∀ l, TargetChain p.connections l → l.head? = some nid → f ∈ l) := by
  have hedge : ∀ m ∈ p.nodes, ∀ q ∈ predsOf p.connections m.id,
      order.indexOf q < order.indexOf m.id := by
    intro m _ q hq
    exact horder _ (mem_predsOf.mp hq)
  have hcov0 : ∀ m ∈ p.nodes, ∀ q ∈ predsOf p.connections m.id,
      (([] : StateMap).lookup q).isSome = true ∨ ∃ m' ∈ p.nodes, m'.id = q := by
    intro m _ q hq
    right
    have hqids : q ∈ nodeIds p.nodes := (hends _ (mem_predsOf.mp hq)).1
    rw [nodeIds, List.mem_map] at hqids
    obtain ⟨m', hm', hq'⟩ := hqids
    exact ⟨m', hm', hq'⟩
  have hcomplete : ∀ m ∈ p.nodes,
      ((finalStates runN p input).lookup m.id).isSome = true :=
    schedule_complete runN input p.connections order p.nodes.length p.nodes []
      le_rfl hedge hcov0
  have hlookupId : ∀ nid ∈ nodeIds p.nodes,
      ∃ s, (finalStates runN p input).lookup nid = some s := by
    intro nid hnid
    rw [nodeIds, List.mem_map] at hnid
    obtain ⟨m, hm, rfl⟩ := hnid
    exact Option.isSome_iff_exists.mp (hcomplete m hm)
  have hspec : ∀ nid s, (finalStates runN p input).lookup nid = some s →
      ∃ (stAt : StateMap) (n : Node), n ∈ p.nodes ∧ n.id = nid
        ∧ ready stAt p.connections n = true
        ∧ s = runReady runN input p.connections stAt n
        ∧ ∃ t, stAt ++ t = finalStates runN p input := by
    intro nid s hs
    rcases schedule_spec runN input p.connections p.nodes.length p.nodes [] nid s
        hs with hL | hR
    · simp [List.lookup] at hL
    · exact hR
  refine ⟨?_, ?_, ?_, ?_⟩
  · intro m hm
    exact Option.isSome_iff_exists.mp (hcomplete m hm)
  · intro f e nid hf hOV
    induction hOV with
    | step n hne hpne hprev ih =>
        obtain ⟨q0, hq0⟩ := List.exists_mem_of_ne_nil _ hpne
        have hnid_mem : n ∈ nodeIds p.nodes := (hends _ (mem_predsOf.mp hq0)).2
        obtain ⟨s, hs⟩ := hlookupId n hnid_mem
        obtain ⟨stAt, m, hm_nodes, hm_id, hm_ready, hm_run, t, ht⟩ := hspec n s hs
        have hpredstate : ∀ q ∈ predsOf p.connections n,
            ∃ v, stAt.lookup q = some v ∧ ∀ o, v ≠ .succeeded o := by
          intro q hq
          have hq_some : (stAt.lookup q).isSome = true := by
            rw [ready, List.all_eq_true] at hm_ready
            exact hm_ready q (by rw [hm_id]; exact hq)
          obtain ⟨v, hv⟩ := Option.isSome_iff_exists.mp hq_some
          refine ⟨v, hv, ?_⟩
          have hfinal_q : (finalStates runN p input).lookup q = some v := by
            rw [← ht]
            exact lookup_append_left hv
          by_cases hqf : q = f
          · subst hqf
            rw [hf] at hfinal_q
            rw [← Option.some.inj hfinal_q]
            intro o
            exact fun hcon => NodeState.noConfusion hcon
          · have hskip := ih q hq hqf
            rw [hskip] at hfinal_q
            rw [← Option.some.inj hfinal_q]
            intro o
            exact fun hcon => NodeState.noConfusion hcon
        have houts : succOutputs stAt (predsOf p.connections n) = [] := by
          rw [succOutputs, List.filterMap_eq_nil_iff]
          intro q hq
          obtain ⟨v, hv, hnv⟩ := hpredstate q hq
          rw [hv]
          cases v with
          | succeeded o => exact absurd rfl (hnv o)
          | failed e' => rfl
          | skipped => rfl
        have hs_skip : s = NodeState.skipped := by
          rw [hm_run, runReady, hm_id]
          simp [isEmpty_false_of_ne_nil hpne, houts]
        rw [hs_skip] at hs
        exact hs
  · intro nid hSR
    induction hSR with
    | source n hn hpreds hgood =>
        obtain ⟨s, hs⟩ := hlookupId n hn
        obtain ⟨stAt, m, hm_nodes, hm_id, hm_ready, hm_run, t, ht⟩ := hspec n s hs
        obtain ⟨o, ho⟩ := hgood m hm_nodes hm_id input
        have hso : s = NodeState.succeeded o := by
          rw [hm_run, runReady, hm_id]
          simp [hpreds, ho]
        rw [hso] at hs
        exact ⟨o, hs⟩
    | step q n hSRq hq hn hgood ih =>
        obtain ⟨oq, hoq⟩ := ih
        obtain ⟨s, hs⟩ := hlookupId n hn
        obtain ⟨stAt, m, hm_nodes, hm_id, hm_ready, hm_run, t, ht⟩ := hspec n s hs
        have hq_some : (stAt.lookup q).isSome = true := by
          rw [ready, List.all_eq_true] at hm_ready
          exact hm_ready q (by rw [hm_id]; exact hq)
        obtain ⟨v, hv⟩ := Option.isSome_iff_exists.mp hq_some
        have hfv : (finalStates runN p input).lookup q = some v := by
          rw [← ht]
          exact lookup_append_left hv
        have hvq : v = NodeState.succeeded oq := by
          rw [hoq] at hfv
          exact Option.some.inj hfv.symm
        have hmem_outs : (q, oq) ∈ succOutputs stAt (predsOf p.connections n) := by
          rw [succOutputs, List.mem_filterMap]
          refine ⟨q, hq, ?_⟩
          rw [hv, hvq]
        have houts_ne : succOutputs stAt (predsOf p.connections n) ≠ [] :=
          List.ne_nil_of_mem hmem_outs
        have hpreds_ne : predsOf p.connections n ≠ [] := List.ne_nil_of_mem hq
        obtain ⟨o, ho⟩ := hgood m hm_nodes hm_id
          (mergeInputs input (succOutputs stAt (predsOf p.connections n)))
        have hso : s = NodeState.succeeded o := by
          rw [hm_run, runReady, hm_id]
          simp [isEmpty_false_of_ne_nil hpreds_ne, isEmpty_false_of_ne_nil houts_ne, ho]
        rw [hso] at hs
        exact ⟨o, hs⟩
  · intro f nid hOV
    induction hOV with
    | step n hne hpne hprev ih =>
        intro l hTC hhead
        cases l with
        | nil => cases hhead
        | cons a rest =>
            have ha : a = n := by simpa using hhead
            subst ha
            cases rest with
            | nil => exact absurd hTC hpne
            | cons b rest2 =>
                obtain ⟨hedge_mem, hTC'⟩ := hTC
                have hb : b ∈ predsOf p.connections a := mem_predsOf.mpr hedge_mem
                by_cases hbf : b = f
                · subst hbf
                  exact List.mem_cons_of_mem _ (List.mem_cons_self _ _)
                · exact List.mem_cons_of_mem _ (ih b hb hbf (b :: rest2) hTC' rfl)

/-- A concrete diamond-with-failure pipeline in the style of the spec §8
diamond example: Input fans out to a sound TextTransform `A` and a
misconfigured TextTransform `B`; `C` hangs only off `B`, and the Output
joins `A` and `C`. -/
def diamondPipeline : Pipeline :=
  { name := "Diamond",
    description := "Failure propagation example",
    nodes :=
      [⟨"I", "input", "Input", []⟩,
       ⟨"A", "text", "Upper", [("operation", "uppercase")]⟩,
       ⟨"B", "text", "Broken", [("operation", "bogus")]⟩,
       ⟨"C", "text", "After broken", [("operation", "uppercase")]⟩,
       ⟨"O", "output", "Output", []⟩],
    connections := [⟨"I", "A"⟩, ⟨"I", "B"⟩, ⟨"B", "C"⟩, ⟨"A", "O"⟩, ⟨"C", "O"⟩] }

/-- C4 witness: on the diamond pipeline the misconfigured node `B`
fails, `C` — reachable only through `B` — is Skipped, while the Output,
reachable through the successful branch `A`, still succeeds. -/
theorem failure_propagation_spec_witness :
    (finalStates runNodePure diamondPipeline "x").lookup "C" = some .skipped
      ∧ ∃ o, (finalStates runNodePure diamondPipeline "x").lookup "O"
          = some (.succeeded o) := by
  have h := failure_propagation_spec runNodePure diamondPipeline "x"
    ["I", "A", "B", "C", "O"] (by decide) (by decide)
  constructor
  · refine h.2.1 "B" "unknown operation" "C" (by decide) ?_
    refine OnlyVia.step "C" (by decide) (by decide) ?_
    intro q hq hqf
    have hpr : predsOf diamondPipeline.connections "C" = ["B"] := by decide
    rw [hpr] at hq
    simp only [List.mem_singleton] at hq
    exact absurd hq hqf
  · refine h.2.2.1 "O" ?_
    have goodI : NeverFails runNodePure diamondPipeline.nodes "I" := by
      intro m hm hid inp
      fin_cases hm <;> first | exact absurd hid (by decide) | exact ⟨_, rfl⟩
    have goodA : NeverFails runNodePure diamondPipeline.nodes "A" := by
      intro m hm hid inp
      fin_cases hm <;> first | exact absurd hid (by decide) | exact ⟨_, rfl⟩
    have goodO : NeverFails runNodePure diamondPipeline.nodes "O" := by
      intro m hm hid inp
      fin_cases hm <;> first | exact absurd hid (by decide) | exact ⟨_, rfl⟩
    exact SafeReach.step "A" "O"
      (SafeReach.step "I" "A"
        (SafeReach.source "I" (by decide) (by decide) goodI)
        (by decide) (by decide) goodA)
      (by decide) (by decide) goodO

end AgentVerse
